import Mathlib

/-!
Shallow embedding of the csvsql utility from csvkit
(src/csvkit/utilities/csvsql.py, method CSVSQL.main), together with
theorems about its flag validation, table-name resolution, ingestion
loop, transaction handling and query execution.

A run is modelled as a trace of externally visible events.  External
collaborators (the CSV schema-inference engine, the SQL renderer and
the database driver) are parameters of the model:

* each input file carries the result of Table.from_csv as an
  Option CsvTable, where none stands for a malformed or empty input
  (whose table object is falsy and is skipped by the loop);
* an Env provides the DDL renderer and the result set produced by
  executing each query text;
* an oracle of type Nat to Bool says which database operation, counted
  in execution order, raises; a raising operation aborts the run the
  way an uncaught exception would, leaving the trace accumulated so
  far and a dbErr outcome.
-/

/-- Result set of a query: the metadata keys (column names) and the rows. -/
abbrev QueryRS := List String × List (List String)

/-- A parsed table as produced by the inference collaborator
(csvkit.table.Table): ordered headers plus data rows. -/
structure CsvTable where
  headers : List String
  rows : List (List String)
  deriving DecidableEq

/-- An input source of the run.  The field parsed holds the outcome of
Table.from_csv on the stream.  Modelled from the spec: the inference
collaborator is external to this file; a malformed or empty input
produces an empty or absent InferredSchema, modelled as parsed = none
(the falsy-table case that the loop skips). -/
structure InputFile where
  isStdin : Bool := false
  name : String := ""
  parsed : Option CsvTable := none
  deriving DecidableEq

/-- The parsed command-line flags consumed by CSVSQL.main. -/
structure Args where
  dialect : Option String := none
  connection_string : Option String := none
  query : Option String := none
  insert : Bool := false
  table_names : Option String := none
  no_constraints : Bool := false
  no_create : Bool := false
  blanks : Bool := false
  db_schema : Option String := none
  sniff_limit : Option Nat := none
  no_inference : Bool := false
  no_header_row : Bool := false
  deriving DecidableEq

/-- Which of the three argparser.error calls fired. -/
inductive ConfigErrKind where
  | dialectWithDb
  | insertWithoutDb
  | noCreateWithoutInsert
  deriving DecidableEq

/-- Final outcome of a run. -/
inductive Outcome where
  | ok
  | configErr (k : ConfigErrKind)
  | dbErr
  deriving DecidableEq

/-- Externally visible events of a run, in order.  openF i is the call
to open input i; read i nm is Table.from_csv consuming input i under
table name nm; close i is the f.close() call; create, insert, exec are
database statements; writeDDL and writeRow are writes to the output
stream; commit and closeConn end the transaction and the connection.
The rollback constructor exists so that its absence from every trace
is a statement about the code, not about the vocabulary. -/
inductive Event where
  | openF (i : Nat)
  | connect
  | read (i : Nat) (nm : String)
  | close (i : Nat)
  | create (nm : String)
  | insert (nm : String) (records : List (List (String × String)))
  | exec (q : String)
  | writeDDL (line : String)
  | writeRow (r : List String)
  | commit
  | rollback
  | closeConn
  deriving DecidableEq

/-- Trace plus outcome of one run of CSVSQL.main. -/
structure RunResult where
  trace : List Event
  outcome : Outcome
  deriving DecidableEq

/-- The external collaborators: renderCreate is
sql.make_create_table_statement (taking the parsed table, the resolved
name and the optional dialect); dbResult gives the result set of
connection.execute on a query text, none when the returned proxy has
no metadata (the AttributeError path). -/
structure Env where
  renderCreate : CsvTable → String → Option String → String
  dbResult : String → Option QueryRS

/-- Splits a character list at every occurrence of the separator,
keeping empty groups, like the Python str.split method with an
explicit one-character separator. -/
def splitChar (sep : Char) : List Char → List (List Char)
  | [] => [[]]
  | c :: cs =>
      let r := splitChar sep cs
      if c = sep then [] :: r
      else
        match r with
        | [] => [[c]]
        | g :: gs => (c :: g) :: gs

/-- Python str.split with a one-character separator, on strings. -/
def splitOnChar (s : String) (sep : Char) : List String :=
  (splitChar sep s.data).map String.mk

/-- Position of the last dot in a list of characters, if any. -/
def lastDotPosAux : List Char → Nat → Option Nat → Option Nat
  | [], _, acc => acc
  | c :: cs, i, acc => lastDotPosAux cs (i + 1) (if c = '.' then some i else acc)

/-- Embedding of os.path.splitext(os.path.split(name)[1])[0]: the last
path component with its extension removed; an extension only counts
when some character before the last dot is not itself a dot. -/
def stemOf (s : String) : String :=
  let b := ((splitOnChar s '/').getLastD "")
  let cs := b.toList
  match lastDotPosAux cs 0 none with
  | none => b
  | some i => if (cs.take i).all (fun c => c = '.') then b else String.mk (cs.take i)

/-- Fallback table name when no explicit name remains: the literal
name stdin for standard input, the filename stem otherwise. -/
def fallbackName (f : InputFile) : String :=
  if f.isStdin then "stdin" else stemOf f.name

/-- Embedding of the per-file name resolution: pop the next explicit
name if any remain (table_names.pop(0)), else fall back. -/
def resolveName : List String → InputFile → String × List String
  | n :: rest, _ => (n, rest)
  | [], f => (fallbackName f, [])

/-- Embedding of the table_names setup: split the --tables argument on
commas when it is present and truthy, else the empty list. -/
def tableNamesList (a : Args) : List String :=
  match a.table_names with
  | some s => if s = "" then [] else splitOnChar s ','
  | none => []

/-- Embedding of lines 60-62: when a query is given and no connection
string is, substitute the in-memory SQLite connection string and force
insertion on.  Returns the effective connection string and insert flag. -/
def effectiveConfig (query : Option String) (cs : Option String) (ins : Bool) :
    Option String × Bool :=
  if query.isSome && cs.isNone then (some "sqlite:///:memory:", true) else (cs, ins)

/-- Effective connection string of a flag set. -/
def effCS (a : Args) : Option String :=
  (effectiveConfig a.query a.connection_string a.insert).1

/-- Effective insert flag of a flag set. -/
def effIns (a : Args) : Bool :=
  (effectiveConfig a.query a.connection_string a.insert).2

/-- Embedding of the three validation checks of lines 64-71, performed
in order on the effective configuration. -/
def checkFlags (dialect : Option String) (noCreate : Bool) (cs : Option String)
    (doIns : Bool) : Option ConfigErrKind :=
  if dialect.isSome && cs.isSome then some ConfigErrKind.dialectWithDb
  else if doIns && cs.isNone then some ConfigErrKind.insertWithoutDb
  else if noCreate && !doIns then some ConfigErrKind.noCreateWithoutInsert
  else none

/-- The configuration error, if any, that a flag set produces. -/
def flagError (a : Args) : Option ConfigErrKind :=
  checkFlags a.dialect a.no_create (effCS a) (effIns a)

/-- Database statements issued inside the ingestion loop. -/
inductive DbOp where
  | createOp (nm : String)
  | insertOp (nm : String) (records : List (List (String × String)))
  deriving DecidableEq

/-- Event recorded when a database statement completes. -/
def opEvent : DbOp → Event
  | DbOp.createOp nm => Event.create nm
  | DbOp.insertOp nm rs => Event.insert nm rs

/-- Embedding of the insert payload: dict(zip(headers, row)) for each
row, modelled as association lists. -/
def mkRecords (t : CsvTable) : List (List (String × String)) :=
  t.rows.map (fun r => t.headers.zip r)

/-- Database statements a truthy table triggers in live mode: a CREATE
unless no_create, then a bulk insert when insertion is on and the
table has at least one row. -/
def fileOps (noCreate : Bool) (doIns : Bool) (nm : String) (t : CsvTable) :
    List DbOp :=
  (if noCreate then [] else [DbOp.createOp nm]) ++
    (if doIns && !t.rows.isEmpty then [DbOp.insertOp nm (mkRecords t)] else [])

/-- Run a list of database statements under the failure oracle,
threading the operation counter; returns the events of the completed
prefix, the new counter and whether an operation raised. -/
def runOps (oracle : Nat → Bool) : Nat → List DbOp → List Event × Nat × Bool
  | ctr, [] => ([], ctr, false)
  | ctr, op :: ops =>
      if oracle ctr then ([], ctr, true)
      else
        let r := runOps oracle (ctr + 1) ops
        (opEvent op :: r.1, r.2.1, r.2.2)

/-- Embedding of the ingestion loop (lines 82-128): for each file pop
or derive its table name, consume it with Table.from_csv, close it,
then either issue the live-mode statements or write one rendered
CREATE statement, skipping falsy tables.  Returns the events, the new
operation counter and whether a database statement raised. -/
def ingest (env : Env) (noCreate : Bool) (dl : Option String) (cs : Option String)
    (doIns : Bool) (oracle : Nat → Bool) :
    List InputFile → List String → Nat → Nat → List Event × Nat × Bool
  | [], _, _, ctr => ([], ctr, false)
  | f :: fs, names, i, ctr =>
      let nm := (resolveName names f).1
      let names' := (resolveName names f).2
      match f.parsed with
      | none =>
          let r := ingest env noCreate dl cs doIns oracle fs names' (i + 1) ctr
          (Event.read i nm :: Event.close i :: r.1, r.2.1, r.2.2)
      | some tb =>
          if cs.isSome then
            let o := runOps oracle ctr (fileOps noCreate doIns nm tb)
            if o.2.2 then
              (Event.read i nm :: Event.close i :: o.1, o.2.1, true)
            else
              let r := ingest env noCreate dl cs doIns oracle fs names' (i + 1) o.2.1
              (Event.read i nm :: Event.close i :: (o.1 ++ r.1), r.2.1, r.2.2)
          else
            let r := ingest env noCreate dl cs doIns oracle fs names' (i + 1) ctr
            (Event.read i nm :: Event.close i ::
              Event.writeDDL (env.renderCreate tb nm dl) :: r.1, r.2.1, r.2.2)

/-- Embedding of the query loop (lines 133-138): walk the semicolon
segments, execute each non-empty one, remembering only the result of
the last executed statement.  Returns events, counter, abort flag and
the final value of the rows variable. -/
def execQueries (env : Env) (oracle : Nat → Bool) :
    List String → Nat → Option QueryRS → List Event × Nat × Bool × Option QueryRS
  | [], ctr, rows => ([], ctr, false, rows)
  | q :: qs, ctr, rows =>
      if q = "" then execQueries env oracle qs ctr rows
      else if oracle ctr then ([], ctr, true, rows)
      else
        let r := execQueries env oracle qs (ctr + 1) (env.dbResult q)
        (Event.exec q :: r.1, r.2.1, r.2.2.1, r.2.2.2)

/-- The rows variable left by the query loop, as a fold over the
segments (none at the start, replaced by the result of every
non-empty segment). -/
def qLast (env : Env) : List String → Option QueryRS → Option QueryRS
  | [], rows => rows
  | q :: qs, rows =>
      if q = "" then qLast env qs rows else qLast env qs (env.dbResult q)

/-- Embedding of lines 141-147: write the header row from the result
metadata then each row; a missing result set raises AttributeError
which the code swallows, producing no output. -/
def renderResult : Option QueryRS → List Event
  | none => []
  | some rs => Event.writeRow rs.1 :: rs.2.map Event.writeRow

/-- The up-front opening of every input path (lines 49-52). -/
def opensOf (n : Nat) : List Event :=
  (List.range n).map Event.openF

/-- Embedding of CSVSQL.main as a trace-producing function: open all
inputs, derive the effective configuration, validate flags, connect
when a connection string is present, run the ingestion loop, run the
query phase, then commit and close on the success path.  Database
operation number 0 is the connection attempt. -/
def mainRun (env : Env) (a : Args) (files : List InputFile) (oracle : Nat → Bool) :
    RunResult :=
  let opens := opensOf files.length
  let names := tableNamesList a
  let cs := effCS a
  let doIns := effIns a
  match checkFlags a.dialect a.no_create cs doIns with
  | some k => ⟨opens, Outcome.configErr k⟩
  | none =>
      if cs.isSome then
        if oracle 0 then ⟨opens, Outcome.dbErr⟩
        else
          let r := ingest env a.no_create a.dialect cs doIns oracle files names 0 1
          if r.2.2 then ⟨opens ++ Event.connect :: r.1, Outcome.dbErr⟩
          else
            match a.query with
            | some qstr =>
                let qr := execQueries env oracle (splitOnChar qstr ';') r.2.1 none
                if qr.2.2.1 then
                  ⟨opens ++ Event.connect :: (r.1 ++ qr.1), Outcome.dbErr⟩
                else if oracle qr.2.1 then
                  ⟨opens ++ Event.connect ::
                    (r.1 ++ qr.1 ++ renderResult qr.2.2.2), Outcome.dbErr⟩
                else
                  ⟨opens ++ Event.connect ::
                    (r.1 ++ qr.1 ++ renderResult qr.2.2.2 ++
                      [Event.commit, Event.closeConn]), Outcome.ok⟩
            | none =>
                if oracle r.2.1 then
                  ⟨opens ++ Event.connect :: r.1, Outcome.dbErr⟩
                else
                  ⟨opens ++ Event.connect ::
                    (r.1 ++ [Event.commit, Event.closeConn]), Outcome.ok⟩
      else
        let r := ingest env a.no_create a.dialect cs doIns oracle files names 0 0
        ⟨opens ++ r.1, Outcome.ok⟩

/-- The oracle under which no database operation raises. -/
def noFail : Nat → Bool := fun _ => false

/-- Indices of the inputs consumed by Table.from_csv, in trace order. -/
def readIdxsOf (t : List Event) : List Nat :=
  t.filterMap (fun e => match e with | Event.read i _ => some i | _ => none)

/-- Table names under which the inputs are consumed, in trace order. -/
def readNamesOf (t : List Event) : List String :=
  t.filterMap (fun e => match e with | Event.read _ nm => some nm | _ => none)

/-- Names of the tables created against the live database, in order. -/
def createsOf (t : List Event) : List String :=
  t.filterMap (fun e => match e with | Event.create nm => some nm | _ => none)

/-- Rendered DDL lines written to the output stream, in order. -/
def ddlWritesOf (t : List Event) : List String :=
  t.filterMap (fun e => match e with | Event.writeDDL s => some s | _ => none)

/-- Rows written to the output stream by the query phase, in order. -/
def rowWritesOf (t : List Event) : List (List String) :=
  t.filterMap (fun e => match e with | Event.writeRow r => some r | _ => none)

/-- Query texts executed against the connection, in order. -/
def execsOf (t : List Event) : List String :=
  t.filterMap (fun e => match e with | Event.exec q => some q | _ => none)

/-- Events the ingestion loop may emit. -/
def isIngestEvent : Event → Bool
  | Event.read _ _ => true
  | Event.close _ => true
  | Event.create _ => true
  | Event.insert _ _ => true
  | Event.writeDDL _ => true
  | _ => false

/-- Whether an event is a read of an input. -/
def isReadE : Event → Bool
  | Event.read _ _ => true
  | _ => false

/-- Scans a trace checking that every read of input i is immediately
followed by the close of input i. -/
def closedImmediately : List Event → Bool
  | [] => true
  | Event.read i _ :: rest =>
      match rest with
      | Event.close j :: rest2 => i == j && closedImmediately rest2
      | _ => false
  | _ :: rest => closedImmediately rest

/-- Running maximum of simultaneously open input handles along a trace. -/
def maxOpenAux : List Event → Nat → Nat → Nat
  | [], _, best => best
  | Event.openF _ :: t, cur, best => maxOpenAux t (cur + 1) (Nat.max best (cur + 1))
  | Event.close _ :: t, cur, best => maxOpenAux t (cur - 1) best
  | _ :: t, cur, best => maxOpenAux t cur best

/-- The largest number of input handles simultaneously open at any
point of a trace. -/
def maxOpen (t : List Event) : Nat := maxOpenAux t 0 0

/-- The ingestion loop's trace when no database operation raises. -/
def ingestOk (env : Env) (noCreate : Bool) (dl : Option String) (cs : Option String)
    (doIns : Bool) : List InputFile → List String → Nat → List Event
  | [], _, _ => []
  | f :: fs, names, i =>
      let nm := (resolveName names f).1
      let names' := (resolveName names f).2
      Event.read i nm :: Event.close i ::
        ((match f.parsed with
          | none => []
          | some tb =>
              if cs.isSome then (fileOps noCreate doIns nm tb).map opEvent
              else [Event.writeDDL (env.renderCreate tb nm dl)]) ++
          ingestOk env noCreate dl cs doIns fs names' (i + 1))

/-- The table name each source receives, in source order, threading
the shrinking explicit-name list through resolveName. -/
def assignNames : List String → List InputFile → List String
  | _, [] => []
  | names, f :: fs =>
      (resolveName names f).1 :: assignNames (resolveName names f).2 fs

/-- Each source paired with the table name it receives. -/
def assignPairs : List String → List InputFile → List (InputFile × String)
  | _, [] => []
  | names, f :: fs =>
      (f, (resolveName names f).1) :: assignPairs (resolveName names f).2 fs

/-- Specification-side list of the DDL lines a run should write: one
rendered statement per source whose table parsed as truthy, in input
order, none in live mode, nothing for empty or malformed sources. -/
def expectedDDLs (env : Env) (dl : Option String) (cs : Option String)
    (names : List String) (files : List InputFile) : List String :=
  (assignPairs names files).filterMap (fun p =>
    match p.1.parsed with
    | some tb => if cs.isSome then none else some (env.renderCreate tb p.2 dl)
    | none => none)

/-- Specification-side list of the tables a run should create: one per
truthy source in live mode unless creation is suppressed, nothing for
empty or malformed sources. -/
def expectedCreates (noCreate : Bool) (cs : Option String)
    (names : List String) (files : List InputFile) : List String :=
  (assignPairs names files).filterMap (fun p =>
    match p.1.parsed with
    | some _ => if cs.isSome && !noCreate then some p.2 else none
    | none => none)

/-- Whether an outcome is a configuration error. -/
def isConfigErr : Outcome → Bool
  | Outcome.configErr _ => true
  | _ => false

/-- Events that may appear after the ingestion loop in a live run:
query executions, result rows, the final commit and the connection
close. -/
def isTailEvent : Event → Bool
  | Event.exec _ => true
  | Event.writeRow _ => true
  | Event.commit => true
  | Event.closeConn => true
  | _ => false

/-- A sample environment for concrete runs. -/
def envW : Env where
  renderCreate := fun _tb nm _dl => String.append "CREATE TABLE " nm
  dbResult := fun q => if q = "SELECT 1" then some (["1"], [["1"]]) else none

/-- A sample well-formed input file. -/
def fileW : InputFile := { isStdin := false, name := "a.csv", parsed := some ⟨["h"], [["v"]]⟩ }

/-- A second sample well-formed input file. -/
def fileW2 : InputFile := { isStdin := false, name := "b.csv", parsed := some ⟨["h"], [["v"]]⟩ }

/-- A malformed or empty input file: its inferred table is absent. -/
def fileBad : InputFile := { isStdin := false, name := "bad.csv", parsed := none }

/-- Concrete flag set: a dialect together with a database target. -/
def aC2 : Args := { dialect := some "mysql", connection_string := some "postgresql://x" }

/-- Concrete flag set: no_create with a query and no database target. -/
def aC4 : Args := { no_create := true, query := some "SELECT 1" }

/-- Concrete flag set: no_create alone. -/
def aNC : Args := { no_create := true }

/-- Concrete flag set: a standalone query. -/
def aQ : Args := { query := some "SELECT 1;" }

/-- Concrete flag set: one explicit table name. -/
def aT : Args := { table_names := some "x" }

/-- Concrete flag set: a dialect together with a query, no database target. -/
def aC10 : Args := { dialect := some "mysql", query := some "SELECT 1" }

theorem opEvent_isIngest (op : DbOp) : isIngestEvent (opEvent op) = true := by
  cases op <;> rfl

theorem runOps_noFail (ops : List DbOp) (ctr : Nat) :
    runOps noFail ctr ops = (ops.map opEvent, ctr + ops.length, false) := by
  induction ops generalizing ctr with
  | nil => simp [runOps]
  | cons op ops ih =>
      simp [runOps, noFail, ih, Nat.add_comm, Nat.add_assoc, Nat.add_left_comm]

theorem runOps_shape (oracle : Nat → Bool) (ctr : Nat) (ops : List DbOp) :
    ∀ e ∈ (runOps oracle ctr ops).1, ∃ op, e = opEvent op := by
  induction ops generalizing ctr with
  | nil => simp [runOps]
  | cons op ops ih =>
      intro e he
      by_cases h : oracle ctr = true
      · simp [runOps, h] at he
      · simp only [runOps, h, if_false, Bool.false_eq_true] at he
        rcases List.mem_cons.mp he with he | he
        · exact ⟨op, he⟩
        · exact ih (ctr + 1) e he

theorem ingest_shape (env : Env) (noCreate : Bool) (dl : Option String)
    (cs : Option String) (doIns : Bool) (oracle : Nat → Bool) :
    ∀ files names i ctr,
      ∀ e ∈ (ingest env noCreate dl cs doIns oracle files names i ctr).1,
        isIngestEvent e = true := by
  intro files
  induction files with
  | nil => intro names i ctr e he; simp [ingest] at he
  | cons f fs ih =>
      intro names i ctr e he
      cases hp : f.parsed with
      | none =>
          simp only [ingest, hp] at he
          rcases List.mem_cons.mp he with he | he
          · subst he; rfl
          rcases List.mem_cons.mp he with he | he
          · subst he; rfl
          · exact ih _ _ _ e he
      | some tb =>
          by_cases hcs : cs.isSome = true
          · by_cases hab :
              (runOps oracle ctr (fileOps noCreate doIns (resolveName names f).1 tb)).2.2 = true
            · simp only [ingest, hp, hcs, if_true, hab] at he
              rcases List.mem_cons.mp he with he | he
              · subst he; rfl
              rcases List.mem_cons.mp he with he | he
              · subst he; rfl
              · obtain ⟨op, rfl⟩ := runOps_shape oracle ctr _ e he
                exact opEvent_isIngest op
            · simp only [ingest, hp, hcs, if_true, hab, Bool.false_eq_true, if_false] at he
              rcases List.mem_cons.mp he with he | he
              · subst he; rfl
              rcases List.mem_cons.mp he with he | he
              · subst he; rfl
              rcases List.mem_append.mp he with he | he
              · obtain ⟨op, rfl⟩ := runOps_shape oracle ctr _ e he
                exact opEvent_isIngest op
              · exact ih _ _ _ e he
          · simp only [ingest, hp, hcs, Bool.false_eq_true, if_false] at he
            rcases List.mem_cons.mp he with he | he
            · subst he; rfl
            rcases List.mem_cons.mp he with he | he
            · subst he; rfl
            rcases List.mem_cons.mp he with he | he
            · subst he; rfl
            · exact ih _ _ _ e he

theorem execQueries_shape (env : Env) (oracle : Nat → Bool) :
    ∀ qs ctr rows, ∀ e ∈ (execQueries env oracle qs ctr rows).1, ∃ q, e = Event.exec q := by
  intro qs
  induction qs with
  | nil => intro ctr rows e he; simp [execQueries] at he
  | cons q qs ih =>
      intro ctr rows e he
      by_cases hq : q = ""
      · simp only [execQueries, hq, if_true] at he
        exact ih _ _ e he
      · by_cases ho : oracle ctr = true
        · simp [execQueries, hq, ho] at he
        · simp only [execQueries, hq, ho, if_false, Bool.false_eq_true] at he
          rcases List.mem_cons.mp he with he | he
          · exact ⟨q, he⟩
          · exact ih _ _ e he

theorem renderResult_shape (rows : Option QueryRS) :
    ∀ e ∈ renderResult rows, ∃ r, e = Event.writeRow r := by
  intro e he
  cases rows with
  | none => simp [renderResult] at he
  | some rs =>
      simp only [renderResult] at he
      rcases List.mem_cons.mp he with he | he
      · exact ⟨rs.1, he⟩
      · obtain ⟨r, _, rfl⟩ := List.mem_map.mp he
        exact ⟨r, rfl⟩

theorem opensOf_shape (n : Nat) : ∀ e ∈ opensOf n, ∃ i, e = Event.openF i := by
  intro e he
  obtain ⟨i, _, rfl⟩ := List.mem_map.mp he
  exact ⟨i, rfl⟩

theorem ingest_noFail (env : Env) (noCreate : Bool) (dl : Option String)
    (cs : Option String) (doIns : Bool) :
    ∀ files names i ctr, ∃ c,
      ingest env noCreate dl cs doIns noFail files names i ctr =
        (ingestOk env noCreate dl cs doIns files names i, c, false) := by
  intro files
  induction files with
  | nil => intro names i ctr; exact ⟨ctr, rfl⟩
  | cons f fs ih =>
      intro names i ctr
      cases hp : f.parsed with
      | none =>
          obtain ⟨c, hc⟩ := ih (resolveName names f).2 (i + 1) ctr
          exact ⟨c, by simp [ingest, ingestOk, hp, hc]⟩
      | some tb =>
          by_cases hcs : cs.isSome = true
          · obtain ⟨c, hc⟩ := ih (resolveName names f).2 (i + 1)
              (ctr + (fileOps noCreate doIns (resolveName names f).1 tb).length)
            exact ⟨c, by simp [ingest, ingestOk, hp, hcs, runOps_noFail, hc]⟩
          · obtain ⟨c, hc⟩ := ih (resolveName names f).2 (i + 1) ctr
            exact ⟨c, by simp [ingest, ingestOk, hp, hcs, hc]⟩

theorem ingest_static (env : Env) (noCreate : Bool) (dl : Option String)
    (doIns : Bool) (oracle : Nat → Bool) :
    ∀ files names i ctr,
      ingest env noCreate dl none doIns oracle files names i ctr =
        (ingestOk env noCreate dl none doIns files names i, ctr, false) := by
  intro files
  induction files with
  | nil => intro names i ctr; rfl
  | cons f fs ih =>
      intro names i ctr
      cases hp : f.parsed with
      | none => simp [ingest, ingestOk, hp, ih]
      | some tb => simp [ingest, ingestOk, hp, ih]

theorem ingestOk_shape (env : Env) (noCreate : Bool) (dl : Option String)
    (cs : Option String) (doIns : Bool) (files : List InputFile)
    (names : List String) (i : Nat) :
    ∀ e ∈ ingestOk env noCreate dl cs doIns files names i, isIngestEvent e = true := by
  intro e he
  obtain ⟨c, hc⟩ := ingest_noFail env noCreate dl cs doIns files names i 0
  exact ingest_shape env noCreate dl cs doIns noFail files names i 0 e (by rw [hc]; exact he)

theorem closedImmediately_cons_nonread (e : Event) (h : isReadE e = false)
    (t : List Event) : closedImmediately (e :: t) = closedImmediately t := by
  cases e <;> first | rfl | simp [isReadE] at h

theorem closedImmediately_append_nonread (s t : List Event)
    (h : ∀ e ∈ s, isReadE e = false) :
    closedImmediately (s ++ t) = closedImmediately t := by
  induction s with
  | nil => rfl
  | cons e s ih =>
      rw [List.cons_append, closedImmediately_cons_nonread e (h e (List.mem_cons_self e s)),
        ih (fun e' he' => h e' (List.mem_cons_of_mem e he'))]

theorem closedImmediately_read_close (i : Nat) (nm : String) (t : List Event) :
    closedImmediately (Event.read i nm :: Event.close i :: t) = closedImmediately t := by
  simp [closedImmediately]

theorem opEvent_nonread (op : DbOp) : isReadE (opEvent op) = false := by
  cases op <;> rfl

theorem closedImmediately_ingest (env : Env) (noCreate : Bool) (dl : Option String)
    (cs : Option String) (doIns : Bool) (oracle : Nat → Bool) :
    ∀ files names i ctr tail,
      closedImmediately ((ingest env noCreate dl cs doIns oracle files names i ctr).1 ++ tail) =
        closedImmediately tail := by
  intro files
  induction files with
  | nil => intro names i ctr tail; rfl
  | cons f fs ih =>
      intro names i ctr tail
      cases hp : f.parsed with
      | none =>
          simp only [ingest, hp]
          rw [List.cons_append, List.cons_append, closedImmediately_read_close, ih]
      | some tb =>
          by_cases hcs : cs.isSome = true
          · by_cases hab :
              (runOps oracle ctr (fileOps noCreate doIns (resolveName names f).1 tb)).2.2 = true
            · simp only [ingest, hp, hcs, if_true, hab]
              rw [List.cons_append, List.cons_append, closedImmediately_read_close]
              exact closedImmediately_append_nonread _ _ (fun e he => by
                obtain ⟨op, rfl⟩ := runOps_shape oracle ctr _ e he
                exact opEvent_nonread op)
            · simp only [ingest, hp, hcs, if_true, hab, Bool.false_eq_true, if_false]
              rw [List.cons_append, List.cons_append, closedImmediately_read_close,
                List.append_assoc]
              rw [closedImmediately_append_nonread _ _ (fun e he => by
                obtain ⟨op, rfl⟩ := runOps_shape oracle ctr _ e he
                exact opEvent_nonread op)]
              exact ih _ _ _ _
          · simp only [ingest, hp, hcs, Bool.false_eq_true, if_false]
            rw [List.cons_append, List.cons_append, closedImmediately_read_close,
              List.cons_append,
              closedImmediately_cons_nonread (Event.writeDDL _) rfl]
            exact ih _ _ _ _

theorem readNamesOf_cons (e : Event) (t : List Event) :
    readNamesOf (e :: t) =
      (match e with | Event.read _ nm => [nm] | _ => []) ++ readNamesOf t := by
  cases e <;> simp [readNamesOf]

theorem readNamesOf_append (s t : List Event) :
    readNamesOf (s ++ t) = readNamesOf s ++ readNamesOf t := by
  simp [readNamesOf]

theorem readIdxsOf_cons (e : Event) (t : List Event) :
    readIdxsOf (e :: t) =
      (match e with | Event.read i _ => [i] | _ => []) ++ readIdxsOf t := by
  cases e <;> simp [readIdxsOf]

theorem readIdxsOf_append (s t : List Event) :
    readIdxsOf (s ++ t) = readIdxsOf s ++ readIdxsOf t := by
  simp [readIdxsOf]

theorem ddlWritesOf_cons (e : Event) (t : List Event) :
    ddlWritesOf (e :: t) =
      (match e with | Event.writeDDL s => [s] | _ => []) ++ ddlWritesOf t := by
  cases e <;> simp [ddlWritesOf]

theorem ddlWritesOf_append (s t : List Event) :
    ddlWritesOf (s ++ t) = ddlWritesOf s ++ ddlWritesOf t := by
  simp [ddlWritesOf]

theorem createsOf_cons (e : Event) (t : List Event) :
    createsOf (e :: t) =
      (match e with | Event.create nm => [nm] | _ => []) ++ createsOf t := by
  cases e <;> simp [createsOf]

theorem createsOf_append (s t : List Event) :
    createsOf (s ++ t) = createsOf s ++ createsOf t := by
  simp [createsOf]

theorem readNamesOf_opEvents (ops : List DbOp) : readNamesOf (ops.map opEvent) = [] := by
  simp only [readNamesOf, List.filterMap_map]
  exact List.filterMap_eq_nil_iff.mpr (fun op _ => by cases op <;> rfl)

theorem readIdxsOf_opEvents (ops : List DbOp) : readIdxsOf (ops.map opEvent) = [] := by
  simp only [readIdxsOf, List.filterMap_map]
  exact List.filterMap_eq_nil_iff.mpr (fun op _ => by cases op <;> rfl)

theorem ddlWritesOf_opEvents (ops : List DbOp) : ddlWritesOf (ops.map opEvent) = [] := by
  simp only [ddlWritesOf, List.filterMap_map]
  exact List.filterMap_eq_nil_iff.mpr (fun op _ => by cases op <;> rfl)

theorem createsOf_fileOps (nc doIns : Bool) (nm : String) (tb : CsvTable) :
    createsOf ((fileOps nc doIns nm tb).map opEvent) = if nc then [] else [nm] := by
  by_cases h : nc = true <;> by_cases h2 : (doIns && !tb.rows.isEmpty) = true <;>
    simp [fileOps, h, h2, createsOf, opEvent]

theorem readNamesOf_ingestOk (env : Env) (nc : Bool) (dl cs : Option String)
    (doIns : Bool) :
    ∀ files names i,
      readNamesOf (ingestOk env nc dl cs doIns files names i) = assignNames names files := by
  intro files
  induction files with
  | nil => intro names i; rfl
  | cons f fs ih =>
      intro names i
      cases hp : f.parsed with
      | none =>
          simp [ingestOk, hp, readNamesOf_cons, readNamesOf_append, ih, assignNames]
      | some tb =>
          by_cases hcs : cs.isSome = true <;>
            simp [ingestOk, hp, hcs, readNamesOf_cons, readNamesOf_append, ih,
              assignNames, readNamesOf_opEvents]

theorem readIdxsOf_ingestOk (env : Env) (nc : Bool) (dl cs : Option String)
    (doIns : Bool) :
    ∀ files names i,
      readIdxsOf (ingestOk env nc dl cs doIns files names i) =
        List.range' i files.length := by
  intro files
  induction files with
  | nil => intro names i; rfl
  | cons f fs ih =>
      intro names i
      have hr : List.range' i (fs.length + 1) = i :: List.range' (i + 1) fs.length := rfl
      cases hp : f.parsed with
      | none =>
          simp [ingestOk, hp, readIdxsOf_cons, readIdxsOf_append, ih, hr]
      | some tb =>
          by_cases hcs : cs.isSome = true <;>
            simp [ingestOk, hp, hcs, readIdxsOf_cons, readIdxsOf_append, ih,
              readIdxsOf_opEvents, hr]

theorem ddlWritesOf_ingestOk (env : Env) (nc : Bool) (dl cs : Option String)
    (doIns : Bool) :
    ∀ files names i,
      ddlWritesOf (ingestOk env nc dl cs doIns files names i) =
        expectedDDLs env dl cs names files := by
  intro files
  induction files with
  | nil => intro names i; rfl
  | cons f fs ih =>
      intro names i
      cases hp : f.parsed with
      | none =>
          simp [ingestOk, hp, ddlWritesOf_cons, ddlWritesOf_append, ih,
            expectedDDLs, assignPairs, List.filterMap_cons]
      | some tb =>
          by_cases hcs : cs.isSome = true <;>
            simp [ingestOk, hp, hcs, ddlWritesOf_cons, ddlWritesOf_append, ih,
              expectedDDLs, assignPairs, List.filterMap_cons, ddlWritesOf_opEvents]

theorem createsOf_ingestOk (env : Env) (nc : Bool) (dl cs : Option String)
    (doIns : Bool) :
    ∀ files names i,
      createsOf (ingestOk env nc dl cs doIns files names i) =
        expectedCreates nc cs names files := by
  intro files
  induction files with
  | nil => intro names i; rfl
  | cons f fs ih =>
      intro names i
      cases hp : f.parsed with
      | none =>
          simp [ingestOk, hp, createsOf_cons, createsOf_append, ih,
            expectedCreates, assignPairs, List.filterMap_cons]
      | some tb =>
          by_cases hcs : cs.isSome = true
          · cases nc with
            | true =>
                simp [ingestOk, hp, hcs, createsOf_cons, createsOf_append, ih,
                  expectedCreates, assignPairs, List.filterMap_cons, createsOf_fileOps]
            | false =>
                simp [ingestOk, hp, hcs, createsOf_cons, createsOf_append, ih,
                  expectedCreates, assignPairs, List.filterMap_cons, createsOf_fileOps]
          · simp [ingestOk, hp, hcs, createsOf_cons, createsOf_append, ih,
              expectedCreates, assignPairs, List.filterMap_cons]

theorem execsOf_ingestOk (env : Env) (nc : Bool) (dl cs : Option String)
    (doIns : Bool) (files : List InputFile) (names : List String) (i : Nat) :
    execsOf (ingestOk env nc dl cs doIns files names i) = [] := by
  simp only [execsOf]
  refine List.filterMap_eq_nil_iff.mpr (fun e he => ?_)
  have h := ingestOk_shape env nc dl cs doIns files names i e he
  cases e <;> first | rfl | simp [isIngestEvent] at h

theorem rowWritesOf_ingestOk (env : Env) (nc : Bool) (dl cs : Option String)
    (doIns : Bool) (files : List InputFile) (names : List String) (i : Nat) :
    rowWritesOf (ingestOk env nc dl cs doIns files names i) = [] := by
  simp only [rowWritesOf]
  refine List.filterMap_eq_nil_iff.mpr (fun e he => ?_)
  have h := ingestOk_shape env nc dl cs doIns files names i e he
  cases e <;> first | rfl | simp [isIngestEvent] at h

theorem assignNames_map_fallback (files : List InputFile) :
    assignNames [] files = files.map fallbackName := by
  induction files with
  | nil => rfl
  | cons f fs ih => simp [assignNames, resolveName, ih]

theorem assignNames_spec (names : List String) (files : List InputFile)
    (h : names.length ≤ files.length) :
    assignNames names files = names ++ (files.drop names.length).map fallbackName := by
  induction names generalizing files with
  | nil => simpa using assignNames_map_fallback files
  | cons n ns ih =>
      cases files with
      | nil => simp at h
      | cons f fs =>
          simp only [assignNames, resolveName, List.length_cons, List.drop_succ_cons,
            List.cons_append]
          rw [ih fs (by simpa using h)]

theorem execQueries_noFail (env : Env) :
    ∀ qs ctr rows, ∃ c,
      execQueries env noFail qs ctr rows =
        ((qs.filter (fun q => !(q == ""))).map Event.exec, c, false, qLast env qs rows) := by
  intro qs
  induction qs with
  | nil => intro ctr rows; exact ⟨ctr, rfl⟩
  | cons q qs ih =>
      intro ctr rows
      by_cases hq : q = ""
      · obtain ⟨c, hc⟩ := ih ctr rows
        exact ⟨c, by simp [execQueries, qLast, hq, hc, List.filter_cons]⟩
      · obtain ⟨c, hc⟩ := ih (ctr + 1) (env.dbResult q)
        exact ⟨c, by simp [execQueries, qLast, hq, hc, noFail, List.filter_cons]⟩

theorem qLast_eq_getLast (env : Env) :
    ∀ qs rows, qLast env qs rows =
      match (qs.filter (fun q => !(q == ""))).getLast? with
      | none => rows
      | some q => env.dbResult q := by
  intro qs
  induction qs with
  | nil => intro rows; rfl
  | cons q qs ih =>
      intro rows
      by_cases hq : q = ""
      · simp [qLast, hq, ih, List.filter_cons]
      · simp only [qLast, hq, if_false, ih, List.filter_cons,
          show (!(q == "")) = true by simp [hq], if_true, List.getLast?_cons]
        cases h : (qs.filter (fun q => !(q == ""))).getLast? <;> simp [h]

theorem mainRun_configErr (env : Env) (a : Args) (files : List InputFile)
    (oracle : Nat → Bool) (k : ConfigErrKind) (h : flagError a = some k) :
    mainRun env a files oracle = ⟨opensOf files.length, Outcome.configErr k⟩ := by
  rw [flagError] at h
  simp [mainRun, h]

theorem mainRun_static (env : Env) (a : Args) (files : List InputFile)
    (oracle : Nat → Bool) (h : flagError a = none) (hcs : effCS a = none) :
    mainRun env a files oracle =
      ⟨opensOf files.length ++
        ingestOk env a.no_create a.dialect none (effIns a) files (tableNamesList a) 0,
        Outcome.ok⟩ := by
  rw [flagError] at h
  rw [hcs] at h
  simp [mainRun, h, hcs, ingest_static]

theorem effCS_isSome_of_query (a : Args) (q : String) (hq : a.query = some q) :
    (effCS a).isSome = true := by
  cases h : a.connection_string <;> simp [effCS, effectiveConfig, hq, h]

theorem mainRun_noFail_query (env : Env) (a : Args) (files : List InputFile)
    (qstr : String) (hq : a.query = some qstr) (h : flagError a = none) :
    mainRun env a files noFail =
      ⟨opensOf files.length ++ Event.connect ::
        (ingestOk env a.no_create a.dialect (effCS a) (effIns a) files (tableNamesList a) 0 ++
          (((splitOnChar qstr ';').filter (fun q => !(q == ""))).map Event.exec ++
            (renderResult (qLast env (splitOnChar qstr ';') none) ++
              [Event.commit, Event.closeConn]))), Outcome.ok⟩ := by
  rw [flagError] at h
  obtain ⟨c1, hc1⟩ := ingest_noFail env a.no_create a.dialect (effCS a) (effIns a)
    files (tableNamesList a) 0 1
  obtain ⟨c2, hc2⟩ := execQueries_noFail env (splitOnChar qstr ';') c1 none
  simp [mainRun, h, effCS_isSome_of_query a qstr hq, hq, hc1, hc2, noFail]

theorem mainRun_noFail_noquery (env : Env) (a : Args) (files : List InputFile)
    (hq : a.query = none) (h : flagError a = none) (hcs : (effCS a).isSome = true) :
    mainRun env a files noFail =
      ⟨opensOf files.length ++ Event.connect ::
        (ingestOk env a.no_create a.dialect (effCS a) (effIns a) files (tableNamesList a) 0 ++
          [Event.commit, Event.closeConn]), Outcome.ok⟩ := by
  rw [flagError] at h
  obtain ⟨c1, hc1⟩ := ingest_noFail env a.no_create a.dialect (effCS a) (effIns a)
    files (tableNamesList a) 0 1
  simp [mainRun, h, hq, hcs, hc1, noFail]

theorem mainRun_noFail_ok (env : Env) (a : Args) (files : List InputFile)
    (h : flagError a = none) :
    (mainRun env a files noFail).outcome = Outcome.ok := by
  cases hcs : effCS a with
  | none => rw [mainRun_static env a files noFail h hcs]
  | some c =>
      cases hq : a.query with
      | some qstr => rw [mainRun_noFail_query env a files qstr hq h]
      | none => rw [mainRun_noFail_noquery env a files hq h (by simp [hcs])]

theorem readNamesOf_nil : readNamesOf [] = [] := rfl

theorem readIdxsOf_nil : readIdxsOf [] = [] := rfl

theorem ddlWritesOf_nil : ddlWritesOf [] = [] := rfl

theorem createsOf_nil : createsOf [] = [] := rfl

theorem execsOf_nil : execsOf [] = [] := rfl

theorem rowWritesOf_nil : rowWritesOf [] = [] := rfl

theorem execsOf_cons (e : Event) (t : List Event) :
    execsOf (e :: t) =
      (match e with | Event.exec q => [q] | _ => []) ++ execsOf t := by
  cases e <;> simp [execsOf]

theorem execsOf_append (s t : List Event) :
    execsOf (s ++ t) = execsOf s ++ execsOf t := by
  simp [execsOf]

theorem rowWritesOf_cons (e : Event) (t : List Event) :
    rowWritesOf (e :: t) =
      (match e with | Event.writeRow r => [r] | _ => []) ++ rowWritesOf t := by
  cases e <;> simp [rowWritesOf]

theorem rowWritesOf_append (s t : List Event) :
    rowWritesOf (s ++ t) = rowWritesOf s ++ rowWritesOf t := by
  simp [rowWritesOf]

theorem readNamesOf_opens (n : Nat) : readNamesOf (opensOf n) = [] := by
  simp only [readNamesOf, opensOf, List.filterMap_map]
  exact List.filterMap_eq_nil_iff.mpr (fun i _ => rfl)

theorem readIdxsOf_opens (n : Nat) : readIdxsOf (opensOf n) = [] := by
  simp only [readIdxsOf, opensOf, List.filterMap_map]
  exact List.filterMap_eq_nil_iff.mpr (fun i _ => rfl)

theorem ddlWritesOf_opens (n : Nat) : ddlWritesOf (opensOf n) = [] := by
  simp only [ddlWritesOf, opensOf, List.filterMap_map]
  exact List.filterMap_eq_nil_iff.mpr (fun i _ => rfl)

theorem createsOf_opens (n : Nat) : createsOf (opensOf n) = [] := by
  simp only [createsOf, opensOf, List.filterMap_map]
  exact List.filterMap_eq_nil_iff.mpr (fun i _ => rfl)

theorem execsOf_opens (n : Nat) : execsOf (opensOf n) = [] := by
  simp only [execsOf, opensOf, List.filterMap_map]
  exact List.filterMap_eq_nil_iff.mpr (fun i _ => rfl)

theorem rowWritesOf_opens (n : Nat) : rowWritesOf (opensOf n) = [] := by
  simp only [rowWritesOf, opensOf, List.filterMap_map]
  exact List.filterMap_eq_nil_iff.mpr (fun i _ => rfl)

theorem readNamesOf_execMap (l : List String) : readNamesOf (l.map Event.exec) = [] := by
  simp only [readNamesOf, List.filterMap_map]
  exact List.filterMap_eq_nil_iff.mpr (fun q _ => rfl)

theorem readIdxsOf_execMap (l : List String) : readIdxsOf (l.map Event.exec) = [] := by
  simp only [readIdxsOf, List.filterMap_map]
  exact List.filterMap_eq_nil_iff.mpr (fun q _ => rfl)

theorem ddlWritesOf_execMap (l : List String) : ddlWritesOf (l.map Event.exec) = [] := by
  simp only [ddlWritesOf, List.filterMap_map]
  exact List.filterMap_eq_nil_iff.mpr (fun q _ => rfl)

theorem createsOf_execMap (l : List String) : createsOf (l.map Event.exec) = [] := by
  simp only [createsOf, List.filterMap_map]
  exact List.filterMap_eq_nil_iff.mpr (fun q _ => rfl)

theorem execsOf_execMap (l : List String) : execsOf (l.map Event.exec) = l := by
  induction l with
  | nil => rfl
  | cons q l ih => simp only [List.map_cons, execsOf_cons, ih]; rfl

theorem rowWritesOf_execMap (l : List String) : rowWritesOf (l.map Event.exec) = [] := by
  simp only [rowWritesOf, List.filterMap_map]
  exact List.filterMap_eq_nil_iff.mpr (fun q _ => rfl)

theorem writeRowMap_nil_aux {A : Type} (g : Event → Option A)
    (h : ∀ r, g (Event.writeRow r) = none) (l : List (List String)) :
    (l.map Event.writeRow).filterMap g = [] := by
  rw [List.filterMap_map]
  exact List.filterMap_eq_nil_iff.mpr (fun r _ => h r)

theorem readNamesOf_render (rows : Option QueryRS) : readNamesOf (renderResult rows) = [] := by
  cases rows with
  | none => rfl
  | some rs =>
      simp only [renderResult, readNamesOf_cons, List.nil_append]
      exact writeRowMap_nil_aux _ (fun r => rfl) rs.2

theorem readIdxsOf_render (rows : Option QueryRS) : readIdxsOf (renderResult rows) = [] := by
  cases rows with
  | none => rfl
  | some rs =>
      simp only [renderResult, readIdxsOf_cons, List.nil_append]
      exact writeRowMap_nil_aux _ (fun r => rfl) rs.2

theorem ddlWritesOf_render (rows : Option QueryRS) : ddlWritesOf (renderResult rows) = [] := by
  cases rows with
  | none => rfl
  | some rs =>
      simp only [renderResult, ddlWritesOf_cons, List.nil_append]
      exact writeRowMap_nil_aux _ (fun r => rfl) rs.2

theorem createsOf_render (rows : Option QueryRS) : createsOf (renderResult rows) = [] := by
  cases rows with
  | none => rfl
  | some rs =>
      simp only [renderResult, createsOf_cons, List.nil_append]
      exact writeRowMap_nil_aux _ (fun r => rfl) rs.2

theorem execsOf_render (rows : Option QueryRS) : execsOf (renderResult rows) = [] := by
  cases rows with
  | none => rfl
  | some rs =>
      simp only [renderResult, execsOf_cons, List.nil_append]
      exact writeRowMap_nil_aux _ (fun r => rfl) rs.2

theorem rowWritesOf_writeRowMap (l : List (List String)) :
    rowWritesOf (l.map Event.writeRow) = l := by
  induction l with
  | nil => rfl
  | cons r l ih => simp only [List.map_cons, rowWritesOf_cons, ih]; rfl

theorem rowWritesOf_render (rows : Option QueryRS) :
    rowWritesOf (renderResult rows) =
      match rows with
      | none => []
      | some rs => rs.1 :: rs.2 := by
  cases rows with
  | none => rfl
  | some rs =>
      simp only [renderResult, rowWritesOf_cons, rowWritesOf_writeRowMap]
      rfl

theorem commit_not_mem_ingest (env : Env) (nc : Bool) (dl cs : Option String)
    (doIns : Bool) (oracle : Nat → Bool) (files : List InputFile)
    (names : List String) (i ctr : Nat) :
    Event.commit ∉ (ingest env nc dl cs doIns oracle files names i ctr).1 := fun hc => by
  have h := ingest_shape env nc dl cs doIns oracle files names i ctr Event.commit hc
  simp [isIngestEvent] at h

theorem rollback_not_mem_ingest (env : Env) (nc : Bool) (dl cs : Option String)
    (doIns : Bool) (oracle : Nat → Bool) (files : List InputFile)
    (names : List String) (i ctr : Nat) :
    Event.rollback ∉ (ingest env nc dl cs doIns oracle files names i ctr).1 := fun hc => by
  have h := ingest_shape env nc dl cs doIns oracle files names i ctr Event.rollback hc
  simp [isIngestEvent] at h

theorem openF_not_mem_ingest (env : Env) (nc : Bool) (dl cs : Option String)
    (doIns : Bool) (oracle : Nat → Bool) (files : List InputFile)
    (names : List String) (i ctr j : Nat) :
    Event.openF j ∉ (ingest env nc dl cs doIns oracle files names i ctr).1 := fun hc => by
  have h := ingest_shape env nc dl cs doIns oracle files names i ctr (Event.openF j) hc
  simp [isIngestEvent] at h

theorem mainRun_decomp (env : Env) (a : Args) (files : List InputFile)
    (oracle : Nat → Bool) :
    ((mainRun env a files oracle).trace = opensOf files.length ∧
      (mainRun env a files oracle).outcome ≠ Outcome.ok) ∨
    (effCS a = none ∧
      (mainRun env a files oracle).trace =
        opensOf files.length ++
          (ingest env a.no_create a.dialect none (effIns a) oracle files
            (tableNamesList a) 0 0).1) ∨
    (∃ post,
      (mainRun env a files oracle).trace =
        opensOf files.length ++ Event.connect ::
          ((ingest env a.no_create a.dialect (effCS a) (effIns a) oracle files
            (tableNamesList a) 0 1).1 ++ post) ∧
      (∀ e ∈ post, isTailEvent e = true) ∧
      ((mainRun env a files oracle).outcome = Outcome.ok →
        ∃ mid, post = mid ++ [Event.commit, Event.closeConn] ∧ Event.commit ∉ mid) ∧
      ((mainRun env a files oracle).outcome ≠ Outcome.ok → Event.commit ∉ post)) := by
  cases hk : checkFlags a.dialect a.no_create (effCS a) (effIns a) with
  | some k =>
      have hmr := mainRun_configErr env a files oracle k hk
      left
      rw [hmr]
      exact ⟨rfl, fun h => Outcome.noConfusion h⟩
  | none =>
      by_cases hcs : (effCS a).isSome = true
      · by_cases h0 : oracle 0 = true
        · left
          have hmr : mainRun env a files oracle = ⟨opensOf files.length, Outcome.dbErr⟩ := by
            simp [mainRun, hk, hcs, h0]
          rw [hmr]
          exact ⟨rfl, fun h => Outcome.noConfusion h⟩
        · by_cases hab : (ingest env a.no_create a.dialect (effCS a) (effIns a) oracle files
              (tableNamesList a) 0 1).2.2 = true
          · right; right
            have hmr : mainRun env a files oracle =
                ⟨opensOf files.length ++ Event.connect ::
                  (ingest env a.no_create a.dialect (effCS a) (effIns a) oracle files
                    (tableNamesList a) 0 1).1, Outcome.dbErr⟩ := by
              simp [mainRun, hk, hcs, h0, hab]
            refine ⟨[], by rw [hmr]; simp, fun e he => absurd he (List.not_mem_nil e), ?_, ?_⟩
            · rw [hmr]; intro h; exact absurd h (fun h' => Outcome.noConfusion h')
            · intro _; exact List.not_mem_nil Event.commit
          · cases hq : a.query with
            | none =>
                by_cases hc : oracle (ingest env a.no_create a.dialect (effCS a) (effIns a)
                    oracle files (tableNamesList a) 0 1).2.1 = true
                · right; right
                  have hmr : mainRun env a files oracle =
                      ⟨opensOf files.length ++ Event.connect ::
                        (ingest env a.no_create a.dialect (effCS a) (effIns a) oracle files
                          (tableNamesList a) 0 1).1, Outcome.dbErr⟩ := by
                    simp [mainRun, hk, hcs, h0, hab, hq, hc]
                  refine ⟨[], by rw [hmr]; simp, fun e he => absurd he (List.not_mem_nil e),
                    ?_, ?_⟩
                  · rw [hmr]; intro h; exact absurd h (fun h' => Outcome.noConfusion h')
                  · intro _; exact List.not_mem_nil Event.commit
                · right; right
                  have hmr : mainRun env a files oracle =
                      ⟨opensOf files.length ++ Event.connect ::
                        ((ingest env a.no_create a.dialect (effCS a) (effIns a) oracle files
                          (tableNamesList a) 0 1).1 ++ [Event.commit, Event.closeConn]),
                        Outcome.ok⟩ := by
                    simp [mainRun, hk, hcs, h0, hab, hq, hc]
                  refine ⟨[Event.commit, Event.closeConn], by rw [hmr], ?_, ?_, ?_⟩
                  · intro e he
                    simp only [List.mem_cons, List.mem_singleton] at he
                    rcases he with rfl | he
                    · rfl
                    · rcases he with rfl | he
                      · rfl
                      · simp at he
                  · intro _
                    exact ⟨[], by simp, List.not_mem_nil Event.commit⟩
                  · rw [hmr]; intro h; exact absurd rfl h
            | some qstr =>
                by_cases hq2 : (execQueries env oracle (splitOnChar qstr ';')
                    (ingest env a.no_create a.dialect (effCS a) (effIns a) oracle files
                      (tableNamesList a) 0 1).2.1 none).2.2.1 = true
                · right; right
                  have hmr : mainRun env a files oracle =
                      ⟨opensOf files.length ++ Event.connect ::
                        ((ingest env a.no_create a.dialect (effCS a) (effIns a) oracle files
                          (tableNamesList a) 0 1).1 ++
                          (execQueries env oracle (splitOnChar qstr ';')
                            (ingest env a.no_create a.dialect (effCS a) (effIns a) oracle files
                              (tableNamesList a) 0 1).2.1 none).1), Outcome.dbErr⟩ := by
                    simp [mainRun, hk, hcs, h0, hab, hq, hq2]
                  refine ⟨_, by rw [hmr], ?_, ?_, ?_⟩
                  · intro e he
                    obtain ⟨q, rfl⟩ := execQueries_shape env oracle _ _ _ e he
                    rfl
                  · rw [hmr]; intro h; exact absurd h (fun h' => Outcome.noConfusion h')
                  · intro _ hc
                    obtain ⟨q, h⟩ := execQueries_shape env oracle _ _ _ Event.commit hc
                    exact Event.noConfusion h
                · by_cases hc : oracle (execQueries env oracle (splitOnChar qstr ';')
                      (ingest env a.no_create a.dialect (effCS a) (effIns a) oracle files
                        (tableNamesList a) 0 1).2.1 none).2.1 = true
                  · right; right
                    have hmr : mainRun env a files oracle =
                        ⟨opensOf files.length ++ Event.connect ::
                          ((ingest env a.no_create a.dialect (effCS a) (effIns a) oracle files
                            (tableNamesList a) 0 1).1 ++
                            ((execQueries env oracle (splitOnChar qstr ';')
                              (ingest env a.no_create a.dialect (effCS a) (effIns a) oracle
                                files (tableNamesList a) 0 1).2.1 none).1 ++
                              renderResult (execQueries env oracle (splitOnChar qstr ';')
                                (ingest env a.no_create a.dialect (effCS a) (effIns a) oracle
                                  files (tableNamesList a) 0 1).2.1 none).2.2.2)),
                          Outcome.dbErr⟩ := by
                      simp [mainRun, hk, hcs, h0, hab, hq, hq2, hc]
                    refine ⟨_, by rw [hmr], ?_, ?_, ?_⟩
                    · intro e he
                      rcases List.mem_append.mp he with he | he
                      · obtain ⟨q, rfl⟩ := execQueries_shape env oracle _ _ _ e he
                        rfl
                      · obtain ⟨r, rfl⟩ := renderResult_shape _ e he
                        rfl
                    · rw [hmr]; intro h; exact absurd h (fun h' => Outcome.noConfusion h')
                    · intro _ hcm
                      rcases List.mem_append.mp hcm with hcm | hcm
                      · obtain ⟨q, h⟩ := execQueries_shape env oracle _ _ _ Event.commit hcm
                        exact Event.noConfusion h
                      · obtain ⟨r, h⟩ := renderResult_shape _ Event.commit hcm
                        exact Event.noConfusion h
                  · right; right
                    have hmr : mainRun env a files oracle =
                        ⟨opensOf files.length ++ Event.connect ::
                          ((ingest env a.no_create a.dialect (effCS a) (effIns a) oracle files
                            (tableNamesList a) 0 1).1 ++
                            ((execQueries env oracle (splitOnChar qstr ';')
                              (ingest env a.no_create a.dialect (effCS a) (effIns a) oracle
                                files (tableNamesList a) 0 1).2.1 none).1 ++
                              (renderResult (execQueries env oracle (splitOnChar qstr ';')
                                (ingest env a.no_create a.dialect (effCS a) (effIns a) oracle
                                  files (tableNamesList a) 0 1).2.1 none).2.2.2 ++
                                [Event.commit, Event.closeConn]))), Outcome.ok⟩ := by
                      simp [mainRun, hk, hcs, h0, hab, hq, hq2, hc]
                    refine ⟨_, by rw [hmr], ?_, ?_, ?_⟩
                    · intro e he
                      rcases List.mem_append.mp he with he | he
                      · obtain ⟨q, rfl⟩ := execQueries_shape env oracle _ _ _ e he
                        rfl
                      · rcases List.mem_append.mp he with he | he
                        · obtain ⟨r, rfl⟩ := renderResult_shape _ e he
                          rfl
                        · simp only [List.mem_cons, List.mem_singleton] at he
                          rcases he with rfl | he
                          · rfl
                          · rcases he with rfl | he
                            · rfl
                            · simp at he
                    · intro _
                      refine ⟨(execQueries env oracle (splitOnChar qstr ';')
                          (ingest env a.no_create a.dialect (effCS a) (effIns a) oracle files
                            (tableNamesList a) 0 1).2.1 none).1 ++
                          renderResult (execQueries env oracle (splitOnChar qstr ';')
                            (ingest env a.no_create a.dialect (effCS a) (effIns a) oracle files
                              (tableNamesList a) 0 1).2.1 none).2.2.2, by simp, ?_⟩
                      intro hcm
                      rcases List.mem_append.mp hcm with hcm | hcm
                      · obtain ⟨q, h⟩ := execQueries_shape env oracle _ _ _ Event.commit hcm
                        exact Event.noConfusion h
                      · obtain ⟨r, h⟩ := renderResult_shape _ Event.commit hcm
                        exact Event.noConfusion h
                    · rw [hmr]; intro h; exact absurd rfl h
      · right; left
        have hcs' : effCS a = none := by
          cases h : effCS a with
          | none => rfl
          | some c => rw [h] at hcs; simp at hcs
        have hI := ingest_static env a.no_create a.dialect (effIns a) oracle files
          (tableNamesList a) 0 0
        refine ⟨hcs', ?_⟩
        rw [mainRun_static env a files oracle hk hcs', hI]

theorem closedImmediately_of_nonread (s : List Event)
    (h : ∀ e ∈ s, isReadE e = false) : closedImmediately s = true := by
  have h2 := closedImmediately_append_nonread s [] h
  rw [List.append_nil] at h2
  rw [h2]
  rfl

theorem isTail_nonread (e : Event) (h : isTailEvent e = true) : isReadE e = false := by
  cases e <;> first | rfl | simp [isTailEvent] at h

theorem commit_not_mem_opens (n : Nat) : Event.commit ∉ opensOf n := fun hc => by
  obtain ⟨i, h⟩ := opensOf_shape _ Event.commit hc
  exact Event.noConfusion h

theorem rollback_not_mem_opens (n : Nat) : Event.rollback ∉ opensOf n := fun hc => by
  obtain ⟨i, h⟩ := opensOf_shape _ Event.rollback hc
  exact Event.noConfusion h

/-- C1 counterexample: in a two-file static run both input handles are
open simultaneously right after startup, so the claim that at most one
input file handle is open at any point during the run is false: the
code opens every input before processing the first one. -/
theorem C1_at_most_one_open_cx :
    ¬ maxOpen (mainRun envW {} [fileW, fileW2] noFail).trace ≤ 1 := by decide

/-- C1 (amended): every run opens all of its input sources up front
when it starts; no open happens after that prefix, and each source that
is read is closed immediately after the inference step consumes it,
before the next source is read. -/
theorem C1_open_close_discipline (env : Env) (a : Args) (files : List InputFile)
    (oracle : Nat → Bool) :
    ∃ body, (mainRun env a files oracle).trace = opensOf files.length ++ body ∧
      (∀ i, Event.openF i ∉ body) ∧
      closedImmediately (mainRun env a files oracle).trace = true := by
  have hopens : ∀ tail : List Event,
      closedImmediately (opensOf files.length ++ tail) = closedImmediately tail :=
    fun tail => closedImmediately_append_nonread _ tail (fun e he => by
      obtain ⟨i, rfl⟩ := opensOf_shape _ e he
      rfl)
  rcases mainRun_decomp env a files oracle with ⟨h1, _⟩ | ⟨hcs, h1⟩ | ⟨post, h1, hpost, _, _⟩
  · refine ⟨[], by rw [h1, List.append_nil], fun i => List.not_mem_nil _, ?_⟩
    rw [h1]
    exact closedImmediately_of_nonread _ (fun e he => by
      obtain ⟨i, rfl⟩ := opensOf_shape _ e he
      rfl)
  · refine ⟨_, h1, fun i => openF_not_mem_ingest env _ _ _ _ oracle files _ 0 0 i, ?_⟩
    rw [h1, hopens]
    have h2 := closedImmediately_ingest env a.no_create a.dialect none (effIns a) oracle
      files (tableNamesList a) 0 0 []
    rw [List.append_nil] at h2
    rw [h2]
    rfl
  · refine ⟨_, h1, ?_, ?_⟩
    · intro i him
      rcases List.mem_cons.mp him with hc | him
      · exact Event.noConfusion hc
      rcases List.mem_append.mp him with him | him
      · exact openF_not_mem_ingest env _ _ _ _ oracle files _ 0 1 i him
      · have ht := hpost _ him
        simp [isTailEvent] at ht
    · rw [h1, hopens, closedImmediately_cons_nonread Event.connect rfl,
        closedImmediately_ingest]
      exact closedImmediately_of_nonread post (fun e he => isTail_nonread e (hpost e he))

/-- C2 counterexample: with a dialect and a database target both set
the run does fail with a configuration error, but an input file has
already been opened before the error is reported, contradicting the
part of the claim that says no input file is opened. -/
theorem C2_no_io_cx :
    Event.openF 0 ∈ (mainRun envW aC2 [fileW] noFail).trace ∧
    isConfigErr (mainRun envW aC2 [fileW] noFail).outcome = true := by
  decide

/-- C2 (amended): an invalid flag combination, dialect together with an
effective database target, effective insert without a target, or
creation suppressed without effective insert, fails with a
configuration error before any input is read and before any connection
is attempted; the input files, however, have already been opened up
front. -/
theorem C2_config_error_before_io (env : Env) (a : Args) (files : List InputFile)
    (oracle : Nat → Bool)
    (h : (a.dialect.isSome = true ∧ (effCS a).isSome = true) ∨
      (effIns a = true ∧ effCS a = none) ∨
      (a.no_create = true ∧ effIns a = false)) :
    isConfigErr (mainRun env a files oracle).outcome = true ∧
    (mainRun env a files oracle).trace = opensOf files.length ∧
    (∀ i nm, Event.read i nm ∉ (mainRun env a files oracle).trace) ∧
    Event.connect ∉ (mainRun env a files oracle).trace := by
  have hk : ∃ k, checkFlags a.dialect a.no_create (effCS a) (effIns a) = some k := by
    rcases h with ⟨h1, h2⟩ | ⟨h1, h2⟩ | ⟨h1, h2⟩
    · exact ⟨ConfigErrKind.dialectWithDb, by simp [checkFlags, h1, h2]⟩
    · exact ⟨ConfigErrKind.insertWithoutDb, by simp [checkFlags, h1, h2]⟩
    · by_cases hfirst : (a.dialect.isSome && (effCS a).isSome) = true
      · exact ⟨ConfigErrKind.dialectWithDb, by simp [checkFlags, hfirst]⟩
      · exact ⟨ConfigErrKind.noCreateWithoutInsert, by simp [checkFlags, hfirst, h1, h2]⟩
  obtain ⟨k, hk⟩ := hk
  rw [mainRun_configErr env a files oracle k hk]
  refine ⟨rfl, rfl, ?_, ?_⟩
  · intro i nm hm
    obtain ⟨j, h⟩ := opensOf_shape _ (Event.read i nm) hm
    exact Event.noConfusion h
  · intro hm
    obtain ⟨j, h⟩ := opensOf_shape _ Event.connect hm
    exact Event.noConfusion h

/-- C2 witness: a concrete invalid flag set, dialect together with a
database target, on one input file. -/
theorem C2_config_error_before_io_witness :
    isConfigErr (mainRun envW aC2 [fileBad] noFail).outcome = true ∧
    (mainRun envW aC2 [fileBad] noFail).trace = opensOf 1 ∧
    (∀ i nm, Event.read i nm ∉ (mainRun envW aC2 [fileBad] noFail).trace) ∧
    Event.connect ∉ (mainRun envW aC2 [fileBad] noFail).trace :=
  C2_config_error_before_io envW aC2 [fileBad] noFail (Or.inl ⟨rfl, rfl⟩)

/-- C4 counterexample: with no_create set, insert unset and a query but
no database target, the run succeeds instead of failing with a
configuration error, because the query substitution forces the insert
flag on before the check runs. -/
theorem C4_no_create_cx :
    (mainRun envW aC4 [fileW] noFail).outcome = Outcome.ok := by decide

/-- C4 (amended): with no_create set and insert unset the run fails
with a configuration error, unless a query is supplied without a
database target, in which case insert is forced on and the check
passes. -/
theorem C4_no_create_requires_insert (env : Env) (a : Args) (files : List InputFile)
    (oracle : Nat → Bool) (hnc : a.no_create = true) (hins : a.insert = false)
    (hnq : ¬(a.query.isSome = true ∧ a.connection_string = none)) :
    isConfigErr (mainRun env a files oracle).outcome = true := by
  have hcond : (a.query.isSome && a.connection_string.isNone) = false := by
    cases hq : a.query with
    | none => simp
    | some q =>
        cases hc : a.connection_string with
        | none => exact absurd ⟨by simp [hq], hc⟩ hnq
        | some c => simp
  have heff : effIns a = false := by
    simp [effIns, effectiveConfig, hcond, hins]
  have hk : ∃ k, checkFlags a.dialect a.no_create (effCS a) (effIns a) = some k := by
    by_cases hfirst : (a.dialect.isSome && (effCS a).isSome) = true
    · exact ⟨ConfigErrKind.dialectWithDb, by simp [checkFlags, hfirst]⟩
    · exact ⟨ConfigErrKind.noCreateWithoutInsert, by simp [checkFlags, hfirst, hnc, heff]⟩
  obtain ⟨k, hk⟩ := hk
  rw [mainRun_configErr env a files oracle k hk]
  rfl

/-- C4 witness: no_create alone, with no insert, no query and no
database target, is rejected. -/
theorem C4_no_create_requires_insert_witness :
    isConfigErr (mainRun envW aNC [fileW] noFail).outcome = true :=
  C4_no_create_requires_insert envW aNC [fileW] noFail rfl rfl (by simp [aNC])

theorem tail_pair_facts {α : Type} [DecidableEq α] (pre : List α) (a b : α)
    (h : a ∉ pre) (hab : b ≠ a) :
    (pre ++ [a, b]).count a = 1 ∧ (pre ++ [a, b]).getLast? = some b ∧
    (pre ++ [a, b]).dropLast.getLast? = some a := by
  refine ⟨?_, ?_, ?_⟩
  · rw [List.count_append, List.count_eq_zero.mpr h]
    simp [List.count_cons, hab]
  · simp
  · rw [show pre ++ [a, b] = (pre ++ [a]) ++ [b] by simp, List.dropLast_concat]
    simp

/-- C5: no run ever issues a rollback; on any non-success outcome the
commit is never reached; and on the success path of a live run the
commit happens exactly once, immediately before the final connection
close at the very end of the trace, after all ingestion and query
events. -/
theorem C5_commit_once_at_end (env : Env) (a : Args) (files : List InputFile)
    (oracle : Nat → Bool) :
    Event.rollback ∉ (mainRun env a files oracle).trace ∧
    ((mainRun env a files oracle).outcome ≠ Outcome.ok →
      Event.commit ∉ (mainRun env a files oracle).trace) ∧
    ((effCS a).isSome = true → (mainRun env a files oracle).outcome = Outcome.ok →
      List.count Event.commit (mainRun env a files oracle).trace = 1 ∧
      (mainRun env a files oracle).trace.getLast? = some Event.closeConn ∧
      (mainRun env a files oracle).trace.dropLast.getLast? = some Event.commit) := by
  rcases mainRun_decomp env a files oracle with ⟨h1, h2⟩ | ⟨hcs, h1⟩ |
    ⟨post, h1, hpost, hok, hnok⟩
  · exact ⟨by rw [h1]; exact rollback_not_mem_opens _,
      fun _ => by rw [h1]; exact commit_not_mem_opens _,
      fun _ hokk => absurd hokk h2⟩
  · refine ⟨?_, ?_, ?_⟩
    · rw [h1]
      intro hm
      rcases List.mem_append.mp hm with hm | hm
      · exact rollback_not_mem_opens _ hm
      · exact rollback_not_mem_ingest env _ _ _ _ oracle files _ 0 0 hm
    · intro _
      rw [h1]
      intro hm
      rcases List.mem_append.mp hm with hm | hm
      · exact commit_not_mem_opens _ hm
      · exact commit_not_mem_ingest env _ _ _ _ oracle files _ 0 0 hm
    · intro hs _
      rw [hcs] at hs
      exact absurd hs (by simp)
  · have hpostroll : Event.rollback ∉ post := fun hm => by
      have ht := hpost _ hm
      simp [isTailEvent] at ht
    refine ⟨?_, ?_, ?_⟩
    · rw [h1]
      intro hm
      rcases List.mem_append.mp hm with hm | hm
      · exact rollback_not_mem_opens _ hm
      rcases List.mem_cons.mp hm with hc | hm
      · exact Event.noConfusion hc
      rcases List.mem_append.mp hm with hm | hm
      · exact rollback_not_mem_ingest env _ _ _ _ oracle files _ 0 1 hm
      · exact hpostroll hm
    · intro hne
      rw [h1]
      intro hm
      rcases List.mem_append.mp hm with hm | hm
      · exact commit_not_mem_opens _ hm
      rcases List.mem_cons.mp hm with hc | hm
      · exact Event.noConfusion hc
      rcases List.mem_append.mp hm with hm | hm
      · exact commit_not_mem_ingest env _ _ _ _ oracle files _ 0 1 hm
      · exact hnok hne hm
    · intro _ hokk
      obtain ⟨mid, hpe, hmid⟩ := hok hokk
      have hsplit : (mainRun env a files oracle).trace =
          (opensOf files.length ++ Event.connect ::
            ((ingest env a.no_create a.dialect (effCS a) (effIns a) oracle files
              (tableNamesList a) 0 1).1 ++ mid)) ++ [Event.commit, Event.closeConn] := by
        rw [h1, hpe]
        simp
      have hprecom : Event.commit ∉ opensOf files.length ++ Event.connect ::
          ((ingest env a.no_create a.dialect (effCS a) (effIns a) oracle files
            (tableNamesList a) 0 1).1 ++ mid) := by
        intro hm
        rcases List.mem_append.mp hm with hm | hm
        · exact commit_not_mem_opens _ hm
        rcases List.mem_cons.mp hm with hc | hm
        · exact Event.noConfusion hc
        rcases List.mem_append.mp hm with hm | hm
        · exact commit_not_mem_ingest env _ _ _ _ oracle files _ 0 1 hm
        · exact hmid hm
      rw [hsplit]
      exact tail_pair_facts _ Event.commit Event.closeConn hprecom
        (fun h => Event.noConfusion h)

/-- C5 witness: a concrete live run with a standalone query commits
exactly once, at the very end right before the connection close. -/
theorem C5_commit_once_at_end_witness :
    List.count Event.commit (mainRun envW aQ [fileW] noFail).trace = 1 ∧
    (mainRun envW aQ [fileW] noFail).trace.getLast? = some Event.closeConn ∧
    (mainRun envW aQ [fileW] noFail).trace.dropLast.getLast? = some Event.commit :=
  (C5_commit_once_at_end envW aQ [fileW] noFail).2.2 rfl (by decide)

/-- C3: with valid flags and no database failure, every input source is
consumed in input order even when some sources are malformed or empty
(their table is absent); such a source contributes no created table and
no written statement, as the expected lists make explicit by mapping it
to nothing, while all remaining sources are still processed. -/
theorem C3_bad_input_skipped (env : Env) (a : Args) (files : List InputFile)
    (h : flagError a = none) :
    readIdxsOf (mainRun env a files noFail).trace = List.range files.length ∧
    createsOf (mainRun env a files noFail).trace =
      expectedCreates a.no_create (effCS a) (tableNamesList a) files ∧
    ddlWritesOf (mainRun env a files noFail).trace =
      expectedDDLs env a.dialect (effCS a) (tableNamesList a) files := by
  cases hq : a.query with
  | some qstr =>
      rw [mainRun_noFail_query env a files qstr hq h]
      refine ⟨?_, ?_, ?_⟩
      · simp [readIdxsOf_append, readIdxsOf_cons, readIdxsOf_nil, readIdxsOf_opens,
          readIdxsOf_execMap, readIdxsOf_render, readIdxsOf_ingestOk, List.range_eq_range']
      · simp [createsOf_append, createsOf_cons, createsOf_nil, createsOf_opens,
          createsOf_execMap, createsOf_render, createsOf_ingestOk]
      · simp [ddlWritesOf_append, ddlWritesOf_cons, ddlWritesOf_nil, ddlWritesOf_opens,
          ddlWritesOf_execMap, ddlWritesOf_render, ddlWritesOf_ingestOk]
  | none =>
      cases hcs : effCS a with
      | none =>
          rw [mainRun_static env a files noFail h hcs]
          refine ⟨?_, ?_, ?_⟩
          · simp [readIdxsOf_append, readIdxsOf_opens, readIdxsOf_ingestOk,
              List.range_eq_range']
          · simp [createsOf_append, createsOf_opens, createsOf_ingestOk]
          · simp [ddlWritesOf_append, ddlWritesOf_opens, ddlWritesOf_ingestOk]
      | some c =>
          rw [mainRun_noFail_noquery env a files hq h (by simp [hcs])]
          refine ⟨?_, ?_, ?_⟩
          · simp [readIdxsOf_append, readIdxsOf_cons, readIdxsOf_nil, readIdxsOf_opens,
              readIdxsOf_ingestOk, List.range_eq_range']
          · simp [createsOf_append, createsOf_cons, createsOf_nil, createsOf_opens,
              createsOf_ingestOk, hcs]
          · simp [ddlWritesOf_append, ddlWritesOf_cons, ddlWritesOf_nil, ddlWritesOf_opens,
              ddlWritesOf_ingestOk, hcs]

/-- C3 witness: a static run over a malformed first input and a good
second input reads both sources in order; the bad one contributes
nothing to the expected statement lists. -/
theorem C3_bad_input_skipped_witness :
    readIdxsOf (mainRun envW {} [fileBad, fileW] noFail).trace = List.range 2 ∧
    createsOf (mainRun envW {} [fileBad, fileW] noFail).trace =
      expectedCreates false none [] [fileBad, fileW] ∧
    ddlWritesOf (mainRun envW {} [fileBad, fileW] noFail).trace =
      expectedDDLs envW none none [] [fileBad, fileW] :=
  C3_bad_input_skipped envW {} [fileBad, fileW] rfl

/-- C6: with valid flags, no database failure and at most as many
explicit names as inputs, the sources are consumed under the explicit
names first, in their given order and without reuse, and every later
source under its filename stem, or the literal name stdin for standard
input. -/
theorem C6_table_names (env : Env) (a : Args) (files : List InputFile)
    (h : flagError a = none) (hM : (tableNamesList a).length ≤ files.length) :
    readNamesOf (mainRun env a files noFail).trace =
      tableNamesList a ++ (files.drop (tableNamesList a).length).map fallbackName := by
  have key : readNamesOf (mainRun env a files noFail).trace =
      assignNames (tableNamesList a) files := by
    cases hq : a.query with
    | some qstr =>
        rw [mainRun_noFail_query env a files qstr hq h]
        simp [readNamesOf_append, readNamesOf_cons, readNamesOf_nil, readNamesOf_opens,
          readNamesOf_execMap, readNamesOf_render, readNamesOf_ingestOk]
    | none =>
        cases hcs : effCS a with
        | none =>
            rw [mainRun_static env a files noFail h hcs]
            simp [readNamesOf_append, readNamesOf_opens, readNamesOf_ingestOk]
        | some c =>
            rw [mainRun_noFail_noquery env a files hq h (by simp [hcs])]
            simp [readNamesOf_append, readNamesOf_cons, readNamesOf_nil, readNamesOf_opens,
              readNamesOf_ingestOk]
  rw [key, assignNames_spec _ _ hM]

/-- C6 witness: two files with one explicit name: the first is read
under the explicit name, the second under its filename stem. -/
theorem C6_table_names_witness :
    readNamesOf (mainRun envW aT [fileW, fileW2] noFail).trace =
      tableNamesList aT ++ ([fileW, fileW2].drop (tableNamesList aT).length).map fallbackName :=
  C6_table_names envW aT [fileW, fileW2] rfl (by decide)

/-- C7: when a query is supplied and no database target is configured,
the effective configuration substitutes the in-memory SQLite connection
string and forces insertion on, and the whole run is identical to the
run with that connection string and the insert flag set explicitly, so
the query runs against the ingested inputs exactly as in live mode. -/
theorem C7_memory_substitution (env : Env) (a : Args) (files : List InputFile)
    (oracle : Nat → Bool) (q : String) (hq : a.query = some q)
    (hcs : a.connection_string = none) :
    effectiveConfig a.query a.connection_string a.insert =
      (some "sqlite:///:memory:", true) ∧
    mainRun env a files oracle =
      mainRun env { a with connection_string := some "sqlite:///:memory:", insert := true }
        files oracle := by
  constructor
  · simp [effectiveConfig, hq, hcs]
  · simp [mainRun, effCS, effIns, effectiveConfig, tableNamesList, hq, hcs]

/-- C7 witness: a standalone query over one file runs identically to
the explicit in-memory live-mode run. -/
theorem C7_memory_substitution_witness :
    effectiveConfig aQ.query aQ.connection_string aQ.insert =
      (some "sqlite:///:memory:", true) ∧
    mainRun envW aQ [fileW] noFail =
      mainRun envW { aQ with connection_string := some "sqlite:///:memory:", insert := true }
        [fileW] noFail :=
  C7_memory_substitution envW aQ [fileW] noFail "SELECT 1;" rfl rfl

/-- C8: in a run with a query, valid flags and no database failure, the
query string is split on semicolons, each non-empty segment is executed
in order against the connection, only the result set of the final
executed statement is rendered as a header row followed by the data
rows, and when the final statement yields no result set, in particular
when no statement does, nothing is written and the run still
succeeds. -/
theorem C8_query_execution (env : Env) (a : Args) (files : List InputFile)
    (qstr : String) (hq : a.query = some qstr) (h : flagError a = none) :
    execsOf (mainRun env a files noFail).trace =
      (splitOnChar qstr ';').filter (fun q => !(q == "")) ∧
    rowWritesOf (mainRun env a files noFail).trace =
      (match ((splitOnChar qstr ';').filter (fun q => !(q == ""))).getLast? with
        | none => []
        | some q =>
            match env.dbResult q with
            | none => []
            | some rs => rs.1 :: rs.2) ∧
    (mainRun env a files noFail).outcome = Outcome.ok := by
  refine ⟨?_, ?_, mainRun_noFail_ok env a files h⟩
  · rw [mainRun_noFail_query env a files qstr hq h]
    simp [execsOf_append, execsOf_cons, execsOf_nil, execsOf_opens, execsOf_ingestOk,
      execsOf_execMap, execsOf_render]
  · rw [mainRun_noFail_query env a files qstr hq h]
    rw [qLast_eq_getLast]
    simp [rowWritesOf_append, rowWritesOf_cons, rowWritesOf_nil, rowWritesOf_opens,
      rowWritesOf_ingestOk, rowWritesOf_execMap, rowWritesOf_render]
    cases hfind : List.find? (fun q => !(q == "")) (splitOnChar qstr ';').reverse with
    | none => simp [hfind]
    | some q => simp [hfind]

/-- C8 witness: the standalone query SELECT 1; is executed as its one
non-empty segment and its result set is rendered as header then row. -/
theorem C8_query_execution_witness :
    execsOf (mainRun envW aQ [fileW] noFail).trace =
      (splitOnChar "SELECT 1;" ';').filter (fun q => !(q == "")) ∧
    rowWritesOf (mainRun envW aQ [fileW] noFail).trace =
      (match ((splitOnChar "SELECT 1;" ';').filter (fun q => !(q == ""))).getLast? with
        | none => []
        | some q =>
            match envW.dbResult q with
            | none => []
            | some rs => rs.1 :: rs.2) ∧
    (mainRun envW aQ [fileW] noFail).outcome = Outcome.ok :=
  C8_query_execution envW aQ [fileW] "SELECT 1;" rfl rfl

theorem expectedDDLs_length (env : Env) (dl : Option String) :
    ∀ files names, (expectedDDLs env dl none names files).length =
      (files.filter (fun f => f.parsed.isSome)).length := by
  intro files
  induction files with
  | nil => intro names; rfl
  | cons f fs ih =>
      intro names
      have hrec := ih (resolveName names f).2
      cases hp : f.parsed <;>
        (simp [expectedDDLs, assignPairs, List.filterMap_cons, hp,
          List.filter_cons] at hrec ⊢; omega)

/-- C9: a static run (no database target, no query, valid flags) writes
exactly one rendered CREATE statement per input whose table parsed as
non-empty, in input order, and empty or malformed inputs contribute no
output line; the number of written lines equals the number of non-empty
inputs and the run succeeds. -/
theorem C9_static_output (env : Env) (a : Args) (files : List InputFile)
    (oracle : Nat → Bool) (hcs : a.connection_string = none) (hq : a.query = none)
    (h : flagError a = none) :
    ddlWritesOf (mainRun env a files oracle).trace =
      expectedDDLs env a.dialect none (tableNamesList a) files ∧
    (ddlWritesOf (mainRun env a files oracle).trace).length =
      (files.filter (fun f => f.parsed.isSome)).length ∧
    (mainRun env a files oracle).outcome = Outcome.ok := by
  have hecs : effCS a = none := by simp [effCS, effectiveConfig, hq, hcs]
  have h1 : ddlWritesOf (mainRun env a files oracle).trace =
      expectedDDLs env a.dialect none (tableNamesList a) files := by
    rw [mainRun_static env a files oracle h hecs]
    simp [ddlWritesOf_append, ddlWritesOf_opens, ddlWritesOf_ingestOk]
  refine ⟨h1, ?_, ?_⟩
  · rw [h1, expectedDDLs_length]
  · rw [mainRun_static env a files oracle h hecs]

/-- C9 witness: a static run over one good file and one malformed file
writes the expected single statement line. -/
theorem C9_static_output_witness :
    ddlWritesOf (mainRun envW {} [fileW, fileBad] noFail).trace =
      expectedDDLs envW none none (tableNamesList {}) [fileW, fileBad] ∧
    (ddlWritesOf (mainRun envW {} [fileW, fileBad] noFail).trace).length =
      ([fileW, fileBad].filter (fun f => f.parsed.isSome)).length ∧
    (mainRun envW {} [fileW, fileBad] noFail).outcome = Outcome.ok :=
  C9_static_output envW {} [fileW, fileBad] noFail rfl rfl rfl

/-- C10: a dialect together with a query but no database target fails
with the dialect configuration error, because the in-memory connection
string is substituted before the dialect check runs and therefore
counts as a configured database target. -/
theorem C10_dialect_with_query (env : Env) (a : Args) (files : List InputFile)
    (oracle : Nat → Bool) (d q : String) (hd : a.dialect = some d)
    (hq : a.query = some q) (hcs : a.connection_string = none) :
    (mainRun env a files oracle).outcome =
      Outcome.configErr ConfigErrKind.dialectWithDb := by
  have hk : checkFlags a.dialect a.no_create (effCS a) (effIns a) =
      some ConfigErrKind.dialectWithDb := by
    simp [checkFlags, hd, effCS, effectiveConfig, hq, hcs]
  rw [mainRun_configErr env a files oracle _ hk]

/-- C10 witness: dialect mysql with a query and no database target is
rejected with the dialect error. -/
theorem C10_dialect_with_query_witness :
    (mainRun envW aC10 [fileW] noFail).outcome =
      Outcome.configErr ConfigErrKind.dialectWithDb :=
  C10_dialect_with_query envW aC10 [fileW] noFail "mysql" "SELECT 1" rfl rfl rfl
